import Mathlib

/-!
Verification development for the opfonts repository (font composition
pipeline).  The Python sources under `src/op_fonts` and `src/opfonts` are
shallowly embedded: Python strings are `List Char`, Python `int` is `Int`,
Python `set` is `Finset Int`, exceptions are `Except String`, and the
floating-point scaling arithmetic is modelled over `ℚ`.  Fonts are modelled
by records carrying exactly the state the verified properties inspect.
-/

namespace OpFonts

/-! ## Python primitives

Models of the Python runtime operations used by the sources: `str.strip`,
`str.upper`, `str.split(sep, 1)`, and `int(s, 16)` (which strips ASCII
whitespace, accepts an optional sign, an optional `0x`/`0X` prefix, and
single underscores between hexadecimal digits).  Exotic non-ASCII digit
forms accepted by CPython are out of scope. -/

/-- ASCII whitespace recognised by Python's `str.strip`. -/
def pyWhitespace (c : Char) : Bool :=
  c = ' ' || c = '\t' || c = '\n' || c = '\r' || c = '\x0b' || c = '\x0c'

/-- Model of Python `str.strip()`: drop leading and trailing whitespace. -/
def pyStrip (l : List Char) : List Char :=
  ((l.dropWhile pyWhitespace).reverse.dropWhile pyWhitespace).reverse

/-- Value of a single hexadecimal digit, as in CPython's base-16 digit
table (codepoints 48–57 are `0`–`9`, 65–70 are `A`–`F`, 97–102 are
`a`–`f`). -/
def hexVal? (c : Char) : Option Nat :=
  let n := c.toNat
  if 48 ≤ n ∧ n ≤ 57 then some (n - 48)
  else if 65 ≤ n ∧ n ≤ 70 then some (n - 55)
  else if 97 ≤ n ∧ n ≤ 102 then some (n - 87)
  else none

/-- Digit tail of a base-16 literal: digits optionally separated by single
underscores (an underscore must be followed by a digit). -/
def pyHexCore : List Char → Nat → Option Nat
  | [], acc => some acc
  | c :: rest, acc =>
    if c = '_' then
      match rest with
      | c2 :: rest2 =>
        match hexVal? c2 with
        | some d => pyHexCore rest2 (16 * acc + d)
        | none => none
      | [] => none
    else
      match hexVal? c with
      | some d => pyHexCore rest (16 * acc + d)
      | none => none

/-- A nonempty run of hexadecimal digits with optional inner underscores. -/
def parseHexDigits (l : List Char) : Option Nat :=
  match l with
  | [] => none
  | c :: rest =>
    match hexVal? c with
    | some d => pyHexCore rest d
    | none => none

/-- The optional sign of a Python integer literal: the sign factor and the
remainder of the string. -/
def pySignSplit (t : List Char) : Int × List Char :=
  match t with
  | '+' :: r => (1, r)
  | '-' :: r => (-1, r)
  | _ => (1, t)

/-- The digit part of a base-16 literal after the sign: an optional
`0x`/`0X` prefix (itself optionally followed by one underscore), then
hexadecimal digits with optional inner underscores. -/
def pyHexBody (t1 : List Char) : Option Nat :=
  match t1 with
  | '0' :: c :: r =>
    if c = 'x' ∨ c = 'X' then
      match r with
      | '_' :: r2 => parseHexDigits r2
      | _ => parseHexDigits r
    else parseHexDigits t1
  | _ => parseHexDigits t1

/-- Model of Python `int(s, 16)`: strip whitespace, optional sign, optional
`0x`/`0X` prefix, then hexadecimal digits.  Returns `none` where CPython
raises `ValueError`. -/
def pyInt16? (l : List Char) : Option Int :=
  let t := pyStrip l
  let p := pySignSplit t
  match pyHexBody p.2 with
  | some v => some (p.1 * (v : Int))
  | none => none

/-- Model of Python `s.split(sep, 1)`: the part before the first occurrence
of `sep` and the part after it.  Only used under an `sep ∈ s` guard, exactly
as in the source. -/
def splitOnce (l : List Char) (sep : Char) : List Char × List Char :=
  match l with
  | [] => ([], [])
  | c :: rest =>
    if c = sep then ([], rest)
    else
      let p := splitOnce rest sep
      (c :: p.1, p.2)

/-! ## `op_fonts/subset.py` -/

/-- `parse_unicode_ranges` loop body: one range string folded into the
accumulated codepoint set.  Mirrors the Python source: strip and uppercase,
require the `U+` prefix, then either a single hex codepoint or a
`start-end` pair added as `range(start, end + 1)` (the integer interval
`Finset.Icc start end`, empty when reversed). -/
def parseOneRange (acc : Finset Int) (raw : List Char) : Except String (Finset Int) :=
  let r := (pyStrip raw).map Char.toUpper
  if r.take 2 = ['U', '+'] then
    let r2 := r.drop 2
    if '-' ∈ r2 then
      let p := splitOnce r2 '-'
      match pyInt16? p.1, pyInt16? p.2 with
      | some s, some e => .ok (acc ∪ Finset.Icc s e)
      | _, _ => .error "invalid literal for int() with base 16"
    else
      match pyInt16? r2 with
      | some v => .ok (insert v acc)
      | none => .error "invalid literal for int() with base 16"
  else .error "Invalid Unicode range"

/-- Model of `parse_unicode_ranges`: fold every range string into a set,
return the sorted list, propagating the first `ValueError`. -/
def parse_unicode_ranges (ranges : List (List Char)) : Except String (List Int) :=
  match ranges.foldlM parseOneRange (∅ : Finset Int) with
  | .ok s => .ok (s.sort (· ≤ ·))
  | .error e => .error e

/-- Model of `subset_font` on the codepoint path, with the font abstracted
to its character-map domain `fontCmap`.  The `Except.ok` payload is the
subset font's character-map domain (the requested codepoints present in the
source font), which is what the pipeline later reads back via
`getBestCmap`. -/
def subset_font (fontCmap : List Int) (codepoints : List Int) : Except String (List Int) :=
  if codepoints.isEmpty then .error "No codepoints resolved from ranges"
  else
    let present := codepoints.filter (fun cp => decide (cp ∈ fontCmap))
    if present.isEmpty then .error "No matching glyphs"
    else .ok present

/-! ## `opfonts/charsets.py` -/

/-- Model of `load_charset_file`, with the file abstracted to its list of
lines (each line without its trailing newline, absorbing the
`line.rstrip("\n")` of the source).  Blank lines and lines starting with
`#` are skipped; a single-character line contributes its codepoint; a
longer line is tried as a base-16 integer, falling back to the codepoint of
its first character.  Returns the sorted set. -/
def charsetLineStep (acc : Finset Int) (line : List Char) : Finset Int :=
  if line.isEmpty ∨ line.take 1 = ['#'] then acc
  else if line.length = 1 then insert (line.headI.toNat : Int) acc
  else
    match pyInt16? line with
    | some v => insert v acc
    | none => insert (line.headI.toNat : Int) acc

/-- The whole loop of `load_charset_file`: fold the lines, sort the set. -/
def load_charset_file (lines : List (List Char)) : List Int :=
  (lines.foldl charsetLineStep ∅).sort (· ≤ ·)

/-! ## `op_fonts/pipeline.py` — subsetting loop, scaling, metrics -/

/-- A script entry as consumed by the subsetting loop of `build`:
its resolved codepoints (output of `_resolve_codepoints`), the character-map
domain of its source font, and its scale flag. -/
structure Script where
  name : String
  resolved : List Int
  fontCmap : List Int
  scale : Bool
  deriving DecidableEq

/-- One successful subset produced by the loop: the script name, the
codepoint request passed to `subset_font`, the subset's actual character-map
domain (what `TTFont(out).getBestCmap().keys()` returns), and the scale
flag.  The Python list stores `(path, scale)`; request and actual coverage
are carried here so properties can speak about them. -/
structure SubEntry where
  name : String
  request : List Int
  actual : List Int
  scale : Bool
  deriving DecidableEq

/-- The codepoint request a script gets inside the loop of `build`: its
resolved codepoints, filtered against the covered set only when that set is
nonempty (the `if covered_cps:` guard at pipeline.py line 95). -/
def requestOf (covered : Finset Int) (script : Script) : List Int :=
  if covered = ∅ then script.resolved
  else script.resolved.filter (fun cp => decide (cp ∉ covered))

/-- One iteration of the subsetting loop in `build` (pipeline.py lines
91–109): skip the script when the filtered remainder is empty, otherwise
subset; on success extend the covered set with the subset's *actual*
character map and record the entry; a `ValueError` from `subset_font`
skips the script. -/
def buildStep (st : Finset Int × List SubEntry) (script : Script) :
    Finset Int × List SubEntry :=
  let codepoints := requestOf st.1 script
  if codepoints.isEmpty then st
  else
    match subset_font script.fontCmap codepoints with
    | .ok actual =>
      (st.1 ∪ actual.toFinset,
       st.2 ++ [⟨script.name, codepoints, actual, script.scale⟩])
    | .error _ => st

/-- The subsetting phase of `build`: process enabled scripts in order,
starting from an empty covered set and no subset entries. -/
def subsetPhase (scripts : List Script) : Finset Int × List SubEntry :=
  scripts.foldl buildStep (∅, [])

/-- Python `round`: nearest integer, ties to even (banker's rounding). -/
def pyRound (q : ℚ) : ℤ :=
  let f := ⌊q⌋
  let r := q - f
  if r < 1 / 2 then f
  else if 1 / 2 < r then f + 1
  else if f % 2 = 0 then f else f + 1

/-- Font state inspected by `_scale_to_target`, over `ℚ` in place of Python
floats: units-per-em and the OS/2 cap-height/x-height metadata, whether a
`CFF ` table is present, every outline point (the coordinates the uniform
`TransformPen (scale, 0, 0, scale, 0, 0)` multiplies), and the `hmtx`
entries (glyph name, advance width, left-side bearing). -/
structure ScaleFont where
  upm : ℚ
  capHeight : ℚ
  xHeight : ℚ
  hasCff : Bool
  points : List (ℚ × ℚ)
  metrics : List (String × ℚ × ℚ)
  deriving DecidableEq

/-- Model of `_scale_to_target` (pipeline.py lines 206–259).  Returns the
font unchanged when the cap height is nonpositive or when the computed
scale is within `0.001` of `1`; otherwise transforms every outline point,
rounds every advance width and side bearing, and rescales the
cap-height/x-height metadata. -/
def scaleToTarget (f : ScaleFont) (targetCapRatio : ℚ) : ScaleFont :=
  let sourceCap := if f.capHeight ≠ 0 then f.capHeight else 0
  if sourceCap ≤ 0 then f
  else
    let sourceRatio := sourceCap / f.upm
    let scale := targetCapRatio / sourceRatio
    if |scale - 1| < 1 / 1000 then f
    else
      { f with
        points :=
          if f.hasCff then f.points.map (fun p => (scale * p.1, scale * p.2))
          else f.points
        metrics :=
          if f.hasCff then
            f.metrics.map (fun e =>
              (e.1, ((pyRound (e.2.1 * scale) : ℤ) : ℚ),
               ((pyRound (e.2.2 * scale) : ℤ) : ℚ)))
          else f.metrics
        xHeight :=
          if f.xHeight ≠ 0 then ((pyRound (f.xHeight * scale) : ℤ) : ℚ) else 0
        capHeight :=
          if f.capHeight ≠ 0 then ((pyRound (f.capHeight * scale) : ℤ) : ℚ) else 0 }

/-- Vertical-metrics fields of a font touched by `_fix_metrics`. -/
structure VMetrics where
  sTypoAscender : Int
  sTypoDescender : Int
  sTypoLineGap : Int
  usWinAscent : Int
  usWinDescent : Int
  hheaAscent : Int
  hheaDescent : Int
  hheaLineGap : Int
  deriving DecidableEq

/-- The configured target metrics (`MetricsConfig.ascender/descender`). -/
structure MetricsCfg where
  ascender : Int
  descender : Int
  deriving DecidableEq

/-- Model of `_fix_metrics` (pipeline.py lines 262–288): a no-op when both
configured values are zero, otherwise sets the typographic, Windows and
hhea ascent/descent from the configured values with zero line gaps
(Windows descent takes the absolute value). -/
def fixMetrics (m : MetricsCfg) (f : VMetrics) : VMetrics :=
  if m.ascender = 0 ∧ m.descender = 0 then f
  else
    { sTypoAscender := m.ascender
      sTypoDescender := m.descender
      sTypoLineGap := 0
      usWinAscent := m.ascender
      usWinDescent := |m.descender|
      hheaAscent := m.ascender
      hheaDescent := m.descender
      hheaLineGap := 0 }

/-! ## `opfonts/merge.py` -/

/-- Font state inspected by `merge_fonts` and its helpers: the glyph count
(`len(getGlyphOrder())`), whether the outlines are CFF/cubic, whether a
CFF font is CID-keyed, the units-per-em, and whether a `GSUB` table is
present.  Other tables are not tracked. -/
structure MFont where
  glyphCount : Nat
  isCff : Bool
  isCid : Bool
  upm : Int
  hasGsub : Bool
  deriving DecidableEq, Inhabited

/-- The 65535-glyph ceiling (`_TTF_GLYPH_LIMIT`). -/
def TTF_GLYPH_LIMIT : Nat := 65535

/-- Number of inputs with CFF outlines (`sum(1 for p in font_paths if _is_cff(p))`). -/
def cffCount (fonts : List MFont) : Nat :=
  (fonts.filter (fun f => f.isCff)).length

/-- The batch outline-format decision: `use_cff = cff_count > len(font_paths) // 2`
(Python floor division). -/
def useCff (fonts : List MFont) : Bool :=
  cffCount fonts > fonts.length / 2

/-- Model of `_decid_cff`: a CID-keyed CFF font is rebuilt name-keyed with
the same glyph order and its layout tables copied over; anything else is
returned unchanged. -/
def decidCff (f : MFont) : MFont :=
  if f.isCff ∧ f.isCid then { f with isCid := false } else f

/-- Model of `_ensure_cff`: a non-CFF (glyf) font is rebuilt with cubic CFF
outlines, same glyph order, layout tables copied; a CFF font is unchanged. -/
def ensureCff (f : MFont) : MFont :=
  if f.isCff then f else { f with isCff := true }

/-- Model of `_ensure_quadratic`: a CFF font is rebuilt with quadratic
TrueType outlines, same glyph order, layout tables copied; a non-CFF font
is unchanged. -/
def ensureQuadratic (f : MFont) : MFont :=
  if f.isCff then { f with isCff := false } else f

/-- Model of `_normalize_upm`: rescale to the target units-per-em when it
differs. -/
def normalizeUpm (f : MFont) (targetUpm : Int) : MFont :=
  if f.upm = targetUpm then f else { f with upm := targetUpm }

/-- Model of `_ensure_gsub`: add an empty GSUB table when missing. -/
def ensureGsub (f : MFont) : MFont :=
  if f.hasGsub then f else { f with hasGsub := true }

/-- Model of `_strip_tables` restricted to the table presence the model
tracks: dropping `GSUB` clears the GSUB flag; outline tables are not in the
configured drop lists and are not modelled as droppable. -/
def stripTables (f : MFont) (tags : List String) : MFont :=
  if "GSUB" ∈ tags then { f with hasGsub := false } else f

/-- Per-input processing inside `merge_fonts` (merge.py lines 315–322):
CID→name-keyed, outline-format conversion chosen for the whole batch,
units-per-em normalisation, GSUB placeholder insertion, then the configured
table drops (`if drop_tables:` is false for an empty list). -/
def processFont (useCffBatch : Bool) (targetUpm : Int) (dropTables : List String)
    (f : MFont) : MFont :=
  let f1 := decidCff f
  let f2 := if useCffBatch then ensureCff f1 else ensureQuadratic f1
  let f3 := normalizeUpm f2 targetUpm
  let f4 := ensureGsub f3
  if dropTables.isEmpty then f4 else stripTables f4 dropTables

/-- Units-per-em of the first input (`TTFont(font_paths[0])["head"].unitsPerEm`). -/
def firstUpm : List MFont → Int
  | [] => 0
  | f :: _ => f.upm

/-- The processed input list of `merge_fonts`. -/
def processedFonts (fonts : List MFont) (dropTables : List String) : List MFont :=
  fonts.map (processFont (useCff fonts) (firstUpm fonts) dropTables)

/-- The external `fontTools.merge.Merger` combination step, modelled from
the spec: glyph sets are concatenated with collision-avoiding renaming (so
the merged glyph count is the sum), metadata comes from the first
(baseline) font, and layout tables are merged (present when any input has
one). -/
def combineFonts (processed : List MFont) : MFont :=
  { glyphCount := (processed.map (fun f => f.glyphCount)).sum
    isCff := (processed.headI).isCff
    isCid := false
    upm := (processed.headI).upm
    hasGsub := processed.any (fun f => f.hasGsub) }

/-- The `MergedTooLarge` message raised at merge.py line 331. -/
def mergedTooLargeMsg (n : Nat) : String :=
  "Merged font has " ++ toString n ++ " glyphs, exceeding TTF limit of " ++
    toString TTF_GLYPH_LIMIT

/-- Model of `_rebuild_cmap`: the character-map subtables are not tracked
by `MFont`, so every tracked field is preserved. -/
def rebuildCmap (f : MFont) : MFont := f

/-- Model of `merge_fonts` (merge.py lines 284–343).  `Except.ok f` means
the merged (or, for a single input, copied) font `f` was saved at the
output path; `Except.error msg` means the exception `msg` was raised before
any save of the output path, so no output file is written. -/
def merge_fonts (fonts : List MFont) (dropTables : List String) :
    Except String MFont :=
  match fonts with
  | [] => .error "No fonts to merge"
  | [f] => .ok f
  | _ =>
    let processed := processedFonts fonts dropTables
    let merged := combineFonts processed
    if merged.glyphCount > TTF_GLYPH_LIMIT then
      .error (mergedTooLargeMsg merged.glyphCount)
    else .ok (rebuildCmap merged)

/-! ## Specification-side predicates and denotations -/

/-- The hexadecimal digit characters (both cases). -/
def HEXDIGITS : List Char :=
  ['0', 'a', 'A', '1', 'b', 'B', '2', 'c', 'C', '3', 'd', 'D',
   '4', 'e', 'E', '5', 'f', 'F', '6', '7', '8', '9']

/-- Whether a character is a hexadecimal digit. -/
def isHexCh (c : Char) : Bool := decide (c ∈ HEXDIGITS)

/-- Value of a run of hexadecimal digits, most significant first. -/
def hexListVal (l : List Char) : Nat :=
  l.foldl (fun a c => 16 * a + (hexVal? c).getD 0) 0

/-- Well-formed range string in the sense of the spec: `U+XXXX` or
`U+XXXX-YYYY` with nonempty runs of valid hexadecimal digits and, for a
pair, start ≤ end. -/
def wfRangeB (r : List Char) : Bool :=
  match r with
  | 'U' :: '+' :: body =>
    if '-' ∈ body then
      let p := splitOnce body '-'
      !p.1.isEmpty && !p.2.isEmpty && p.1.all isHexCh && p.2.all isHexCh &&
        hexListVal p.1 ≤ hexListVal p.2
    else !body.isEmpty && body.all isHexCh
  | _ => false

/-- Denotation of a well-formed range string: the inclusive codepoint
interval it describes (a singleton for the `U+XXXX` form). -/
def rangeCPs (r : List Char) : Finset Int :=
  match r with
  | 'U' :: '+' :: body =>
    if '-' ∈ body then
      let p := splitOnce body '-'
      Finset.Icc (hexListVal p.1 : Int) (hexListVal p.2 : Int)
    else {(hexListVal body : Int)}
  | _ => ∅

/-- Per-line contribution of `load_charset_file`: `none` for blank and `#`
lines, the character's codepoint for a single-character line, the parsed
hex value for a longer line that parses as hexadecimal, and the first
character's codepoint otherwise. -/
def lineContrib (line : List Char) : Option Int :=
  if line.isEmpty ∨ line.take 1 = ['#'] then none
  else if line.length = 1 then some (line.headI.toNat : Int)
  else
    match pyInt16? line with
    | some v => some v
    | none => some (line.headI.toNat : Int)

/-! ## Concrete witness inputs -/

/-- Two concrete 35000-glyph CFF fonts used to witness the glyph ceiling. -/
def bigFontA : MFont := ⟨35000, true, false, 1000, true⟩

/-- A second 35000-glyph font (quadratic outlines, no GSUB). -/
def bigFontB : MFont := ⟨35000, false, false, 2048, false⟩

/-- Concrete fonts for the C3 witness: a tie of two CFF among four. -/
def tieFonts : List MFont :=
  [⟨10, true, false, 1000, true⟩, ⟨20, true, false, 1000, true⟩,
   ⟨30, false, false, 1000, true⟩, ⟨40, false, false, 1000, true⟩]

/-- C8 counterexample input: a CFF font with no GSUB table. -/
def gsublessFont : MFont := ⟨10, true, false, 1000, false⟩

/-- A companion font that does carry a GSUB table. -/
def gsubFont : MFont := ⟨20, true, false, 1000, true⟩

/-- C7 witness font: 1000 units-per-em, cap height 700. -/
def scaleWitnessFont : ScaleFont :=
  ⟨1000, 700, 480, true, [(100, 250), (310, 0)], [("A", 600, 55), ("B", 640, 48)]⟩

/-- A concrete starting vertical-metrics record. -/
def vmSample : VMetrics := ⟨1900, -500, 90, 2100, 600, 1900, -500, 90⟩

/-- C1 witness scripts: the first covers U+0041 of a requested pair, the
second requests U+0041 and U+0046 but is deduplicated down to U+0046. -/
def dedupScript1 : Script := ⟨"latin", [65, 66], [65], true⟩

/-- Second witness script. -/
def dedupScript2 : Script := ⟨"cjk", [65, 70], [70], false⟩

/-- First witness subset entry. -/
def dedupEntry1 : SubEntry := ⟨"latin", [65, 66], [65], true⟩

/-- Second witness subset entry. -/
def dedupEntry2 : SubEntry := ⟨"cjk", [70], [70], false⟩

/-- C4 witness ranges: a three-codepoint pair range and a single lowercase
hex codepoint. -/
def wfRange1 : List Char := ['U', '+', '0', '0', '4', '1', '-', '0', '0', '4', '3']

/-- Second witness range. -/
def wfRange2 : List Char := ['U', '+', '0', '0', 'e', '9']

/-- C5 counterexample input: a reversed range, end below start. -/
def revRange : List Char := ['U', '+', '0', '0', '5', '0', '-', '0', '0', '4', '1']

/-! ## Helper lemmas -/

theorem decidCff_glyphCount (f : MFont) : (decidCff f).glyphCount = f.glyphCount := by
  unfold decidCff; split <;> rfl

theorem decidCff_isCff (f : MFont) : (decidCff f).isCff = f.isCff := by
  unfold decidCff; split <;> rfl

theorem decidCff_hasGsub (f : MFont) : (decidCff f).hasGsub = f.hasGsub := by
  unfold decidCff; split <;> rfl

theorem ensureCff_glyphCount (f : MFont) : (ensureCff f).glyphCount = f.glyphCount := by
  unfold ensureCff; split <;> rfl

theorem ensureCff_isCff (f : MFont) : (ensureCff f).isCff = true := by
  unfold ensureCff; split <;> simp_all

theorem ensureCff_hasGsub (f : MFont) : (ensureCff f).hasGsub = f.hasGsub := by
  unfold ensureCff; split <;> rfl

theorem ensureQuadratic_glyphCount (f : MFont) :
    (ensureQuadratic f).glyphCount = f.glyphCount := by
  unfold ensureQuadratic; split <;> rfl

theorem ensureQuadratic_isCff (f : MFont) : (ensureQuadratic f).isCff = false := by
  unfold ensureQuadratic; split <;> simp_all

theorem ensureQuadratic_hasGsub (f : MFont) :
    (ensureQuadratic f).hasGsub = f.hasGsub := by
  unfold ensureQuadratic; split <;> rfl

theorem normalizeUpm_glyphCount (f : MFont) (t : Int) :
    (normalizeUpm f t).glyphCount = f.glyphCount := by
  unfold normalizeUpm; split <;> rfl

theorem normalizeUpm_isCff (f : MFont) (t : Int) :
    (normalizeUpm f t).isCff = f.isCff := by
  unfold normalizeUpm; split <;> rfl

theorem normalizeUpm_hasGsub (f : MFont) (t : Int) :
    (normalizeUpm f t).hasGsub = f.hasGsub := by
  unfold normalizeUpm; split <;> rfl

theorem ensureGsub_glyphCount (f : MFont) : (ensureGsub f).glyphCount = f.glyphCount := by
  unfold ensureGsub; split <;> rfl

theorem ensureGsub_isCff (f : MFont) : (ensureGsub f).isCff = f.isCff := by
  unfold ensureGsub; split <;> rfl

theorem ensureGsub_hasGsub (f : MFont) : (ensureGsub f).hasGsub = true := by
  unfold ensureGsub; split <;> simp_all

theorem stripTables_glyphCount (f : MFont) (tags : List String) :
    (stripTables f tags).glyphCount = f.glyphCount := by
  unfold stripTables; split <;> rfl

theorem stripTables_isCff (f : MFont) (tags : List String) :
    (stripTables f tags).isCff = f.isCff := by
  unfold stripTables; split <;> rfl

theorem stripTables_of_not_gsub (f : MFont) (tags : List String)
    (h : "GSUB" ∉ tags) : stripTables f tags = f := by
  unfold stripTables
  exact if_neg h

theorem processFont_eq (u : Bool) (t : Int) (d : List String) (f : MFont) :
    processFont u t d f =
      (let f4 := ensureGsub (normalizeUpm
        (if u then ensureCff (decidCff f) else ensureQuadratic (decidCff f)) t)
       if d.isEmpty then f4 else stripTables f4 d) := by
  cases u <;> rfl

theorem processFont_glyphCount (u : Bool) (t : Int) (d : List String) (f : MFont) :
    (processFont u t d f).glyphCount = f.glyphCount := by
  rw [processFont_eq]
  have h4 : (ensureGsub (normalizeUpm
      (if u then ensureCff (decidCff f) else ensureQuadratic (decidCff f)) t)).glyphCount
      = f.glyphCount := by
    cases u <;>
      simp [ensureGsub_glyphCount, normalizeUpm_glyphCount, ensureCff_glyphCount,
        ensureQuadratic_glyphCount, decidCff_glyphCount]
  by_cases hd : d.isEmpty <;> simp [hd, stripTables_glyphCount, h4]

theorem processFont_isCff (u : Bool) (t : Int) (d : List String) (f : MFont) :
    (processFont u t d f).isCff = u := by
  rw [processFont_eq]
  have h4 : (ensureGsub (normalizeUpm
      (if u then ensureCff (decidCff f) else ensureQuadratic (decidCff f)) t)).isCff
      = u := by
    cases u <;>
      simp [ensureGsub_isCff, normalizeUpm_isCff, ensureCff_isCff,
        ensureQuadratic_isCff]
  by_cases hd : d.isEmpty <;> simp [hd, stripTables_isCff, h4]

theorem processFont_hasGsub (u : Bool) (t : Int) (d : List String) (f : MFont)
    (hd : "GSUB" ∉ d) : (processFont u t d f).hasGsub = true := by
  rw [processFont_eq]
  have h4 : (ensureGsub (normalizeUpm
      (if u then ensureCff (decidCff f) else ensureQuadratic (decidCff f)) t)).hasGsub
      = true := ensureGsub_hasGsub _
  by_cases hde : d.isEmpty <;> simp [hde, stripTables_of_not_gsub _ _ hd, h4]

theorem processedFonts_glyphSum (fonts : List MFont) (d : List String) :
    ((processedFonts fonts d).map (fun f => f.glyphCount)).sum =
      (fonts.map (fun f => f.glyphCount)).sum := by
  simp only [processedFonts, List.map_map]
  congr 1
  apply List.map_congr_left
  intro f _
  exact processFont_glyphCount _ _ _ f

theorem subset_font_eq (fm cps : List Int) :
    subset_font fm cps =
      (if cps.isEmpty then .error "No codepoints resolved from ranges"
       else if (cps.filter (fun cp => decide (cp ∈ fm))).isEmpty then
         .error "No matching glyphs"
       else .ok (cps.filter (fun cp => decide (cp ∈ fm)))) := rfl

theorem subset_font_ok_inv {fm cps actual : List Int}
    (h : subset_font fm cps = .ok actual) :
    actual = cps.filter (fun cp => decide (cp ∈ fm)) ∧ actual ≠ [] := by
  rw [subset_font_eq] at h
  split_ifs at h with h1 h2 <;> cases h
  exact ⟨rfl, by simpa [List.isEmpty_iff] using h2⟩

/-! ## Claim theorems -/

/-- C6.  Subsetting overlap errors: for a non-empty requested codepoint
list, `subset_font` raises `NoMatchingGlyphs` exactly when the request's
intersection with the font's character map is empty, and succeeds whenever
that intersection is non-empty (partial coverage included). -/
theorem subset_font_overlap (fontCmap codepoints : List Int)
    (h : codepoints ≠ []) :
    (subset_font fontCmap codepoints = .error "No matching glyphs" ↔
      codepoints.filter (fun cp => decide (cp ∈ fontCmap)) = []) ∧
    (codepoints.filter (fun cp => decide (cp ∈ fontCmap)) ≠ [] →
      ∃ out, subset_font fontCmap codepoints = .ok out) := by
  have hne : codepoints.isEmpty = false := by simpa [List.isEmpty_iff] using h
  rw [subset_font_eq]
  by_cases hfil : codepoints.filter (fun cp => decide (cp ∈ fontCmap)) = []
  · simp [hne, hfil]
  · have hfe : (codepoints.filter (fun cp => decide (cp ∈ fontCmap))).isEmpty = false := by
      simpa [List.isEmpty_iff] using hfil
    simp [hne, hfe, hfil]

/-- C6 witness: a request partially covered by the font succeeds, and a
disjoint request fails with `NoMatchingGlyphs`. -/
theorem subset_font_overlap_witness :
    ([65, 66, 700] : List Int) ≠ [] ∧
    (([65, 66, 700] : List Int).filter
        (fun cp => decide (cp ∈ ([65, 700, 800] : List Int))) ≠ [] →
      ∃ out, subset_font [65, 700, 800] [65, 66, 700] = .ok out) :=
  ⟨by decide, (subset_font_overlap [65, 700, 800] [65, 66, 700] (by decide)).2⟩

/-- C2.  Glyph-ceiling atomicity: for two or more input fonts whose merged
glyph count exceeds 65535, `merge_fonts` raises the `MergedTooLarge` fatal
error after combination (the message carries the combined count), and the
run never reaches the save of the output path, so no output file is
written (`Except.ok` is the only constructor that models a saved output). -/
theorem merge_fonts_glyph_ceiling (fonts : List MFont) (dropTables : List String)
    (h2 : 2 ≤ fonts.length)
    (hbig : TTF_GLYPH_LIMIT < (fonts.map (fun f => f.glyphCount)).sum) :
    merge_fonts fonts dropTables =
      .error (mergedTooLargeMsg ((fonts.map (fun f => f.glyphCount)).sum)) ∧
    ∀ g, merge_fonts fonts dropTables ≠ .ok g := by
  obtain ⟨a, b, rest, rfl⟩ : ∃ a b rest, fonts = a :: b :: rest := by
    match fonts, h2 with
    | a :: b :: rest, _ => exact ⟨a, b, rest, rfl⟩
  have hcount : (combineFonts (processedFonts (a :: b :: rest) dropTables)).glyphCount
      = ((a :: b :: rest).map (fun f => f.glyphCount)).sum := by
    simpa [combineFonts] using processedFonts_glyphSum (a :: b :: rest) dropTables
  have hmain : merge_fonts (a :: b :: rest) dropTables =
      .error (mergedTooLargeMsg (((a :: b :: rest).map (fun f => f.glyphCount)).sum)) := by
    show (let processed := processedFonts (a :: b :: rest) dropTables
          let merged := combineFonts processed
          if merged.glyphCount > TTF_GLYPH_LIMIT then
            Except.error (mergedTooLargeMsg merged.glyphCount)
          else Except.ok (rebuildCmap merged)) = _
    dsimp only
    rw [hcount]
    simp only [gt_iff_lt, if_pos hbig]
  exact ⟨hmain, fun g hg => by rw [hmain] at hg; cases hg⟩

/-- C2 witness: merging two 35000-glyph fonts (70000 combined) raises
`MergedTooLarge` and produces no saved output. -/
theorem merge_fonts_glyph_ceiling_witness :
    2 ≤ ([bigFontA, bigFontB] : List MFont).length ∧
    TTF_GLYPH_LIMIT < (([bigFontA, bigFontB] : List MFont).map
      (fun f => f.glyphCount)).sum ∧
    (merge_fonts [bigFontA, bigFontB] [] =
      .error (mergedTooLargeMsg ((([bigFontA, bigFontB] : List MFont).map
        (fun f => f.glyphCount)).sum)) ∧
      ∀ g, merge_fonts [bigFontA, bigFontB] [] ≠ .ok g) :=
  ⟨by decide, by decide,
    merge_fonts_glyph_ceiling [bigFontA, bigFontB] [] (by decide) (by decide)⟩

/-- C3.  Batch outline-format choice: with at least two inputs, the batch
is converted to cubic (CFF) exactly when the CFF inputs form a strict
majority (`2 * C > N`), and every processed font of the batch carries that
single chosen format — so a tie (`2 * C = N`) converts the whole batch to
quadratic. -/
theorem batch_format_choice (fonts : List MFont) (dropTables : List String)
    (h2 : 2 ≤ fonts.length) :
    (useCff fonts = true ↔ 2 * cffCount fonts > fonts.length) ∧
    (∀ f ∈ processedFonts fonts dropTables, f.isCff = useCff fonts) := by
  constructor
  · simp only [useCff, decide_eq_true_eq, gt_iff_lt]
    omega
  · intro f hf
    simp only [processedFonts, List.mem_map] at hf
    obtain ⟨g, _, rfl⟩ := hf
    exact processFont_isCff _ _ _ g

/-- C3 witness: on a 2-vs-2 tie the strict-majority test fails and the
whole batch is processed to quadratic outlines. -/
theorem batch_format_choice_witness :
    2 ≤ tieFonts.length ∧
    ((useCff tieFonts = true ↔ 2 * cffCount tieFonts > tieFonts.length) ∧
      (∀ f ∈ processedFonts tieFonts [], f.isCff = useCff tieFonts)) :=
  ⟨by decide, batch_format_choice tieFonts [] (by decide)⟩

/-- C8 counterexample: an input font lacking the GSUB substitution table is
not rejected by the merge engine — `merge_fonts` succeeds on it, so the
absence of the placeholder is not a structural error. -/
theorem merge_accepts_missing_gsub :
    gsublessFont.hasGsub = false ∧
    merge_fonts [gsublessFont, gsubFont] [] = .ok ⟨30, true, false, 1000, true⟩ := by
  constructor
  · rfl
  · rfl

/-- C8 (amended).  Every processed font carries a (possibly empty) GSUB
substitution table before being passed to the merger, because
`_ensure_gsub` inserts an empty placeholder when it is missing (provided
the configured drop list does not drop GSUB afterwards); an input lacking
the table is silently repaired rather than rejected. -/
theorem processed_fonts_carry_gsub (fonts : List MFont) (dropTables : List String)
    (hd : "GSUB" ∉ dropTables) :
    ∀ f ∈ processedFonts fonts dropTables, f.hasGsub = true := by
  intro f hf
  simp only [processedFonts, List.mem_map] at hf
  obtain ⟨g, _, rfl⟩ := hf
  exact processFont_hasGsub _ _ _ g hd

/-- C8 witness: the GSUB-less font comes out of processing with the empty
GSUB placeholder present. -/
theorem processed_fonts_carry_gsub_witness :
    ("GSUB" ∉ (["vhea", "vmtx"] : List String)) ∧
    ∀ f ∈ processedFonts [gsublessFont, gsubFont] ["vhea", "vmtx"],
      f.hasGsub = true :=
  ⟨by decide,
    processed_fonts_carry_gsub [gsublessFont, gsubFont] ["vhea", "vmtx"] (by decide)⟩

/-- C7.  Scaling no-op threshold: for a font with positive cap-height, the
normaliser computes `scale = targetRatio / (capHeight / unitsPerEm)`, and
whenever `|scale - 1| < 0.001` the font is returned entirely unchanged —
no outline transform, no width rounding, no metadata rescale.  (Python
float arithmetic is modelled over `ℚ`.) -/
theorem scale_noop_threshold (f : ScaleFont) (targetRatio : ℚ)
    (hcap : 0 < f.capHeight)
    (hthr : |targetRatio / (f.capHeight / f.upm) - 1| < 1 / 1000) :
    scaleToTarget f targetRatio = f := by
  unfold scaleToTarget
  rw [if_pos hcap.ne']
  rw [if_neg (not_le.mpr hcap)]
  rw [if_pos hthr]

/-- C7 witness: a target ratio giving computed scale exactly 1.0003 leaves
the font untouched. -/
theorem scale_noop_threshold_witness :
    (0 < scaleWitnessFont.capHeight ∧
      |(70021 / 100000 : ℚ) / (scaleWitnessFont.capHeight / scaleWitnessFont.upm) - 1|
        < 1 / 1000) ∧
    scaleToTarget scaleWitnessFont (70021 / 100000) = scaleWitnessFont :=
  ⟨⟨by norm_num [scaleWitnessFont], by norm_num [scaleWitnessFont, abs_lt]⟩,
    scale_noop_threshold scaleWitnessFont (70021 / 100000)
      (by norm_num [scaleWitnessFont]) (by norm_num [scaleWitnessFont, abs_lt])⟩

/-- C10.  Metrics fixup: with both configured ascender and descender zero
the font's vertical metrics are left at their merged-source values;
otherwise the typographic, Windows and hhea ascent/descent fields are set
from the configured values with both line gaps zero (Windows descent takes
the absolute value of the configured descender). -/
theorem fix_metrics_spec (m : MetricsCfg) (f : VMetrics) :
    (m.ascender = 0 ∧ m.descender = 0 → fixMetrics m f = f) ∧
    (¬(m.ascender = 0 ∧ m.descender = 0) →
      fixMetrics m f =
        ⟨m.ascender, m.descender, 0, m.ascender, |m.descender|,
         m.ascender, m.descender, 0⟩) := by
  constructor
  · intro hz
    unfold fixMetrics
    exact if_pos hz
  · intro hnz
    unfold fixMetrics
    exact if_neg hnz

/-- C10 witness: the all-zero configuration is a no-op, and a nonzero
configuration overwrites the nine fields as described. -/
theorem fix_metrics_witness :
    fixMetrics ⟨0, 0⟩ vmSample = vmSample ∧
    fixMetrics ⟨1950, -494⟩ vmSample =
      ⟨1950, -494, 0, 1950, |(-494 : Int)|, 1950, -494, 0⟩ :=
  ⟨(fix_metrics_spec ⟨0, 0⟩ vmSample).1 ⟨rfl, rfl⟩,
   (fix_metrics_spec ⟨1950, -494⟩ vmSample).2 (by decide)⟩

theorem buildStep_cases (st : Finset Int × List SubEntry) (s : Script) :
    buildStep st s = st ∨
    ∃ act : List Int,
      act = (requestOf st.1 s).filter (fun cp => decide (cp ∈ s.fontCmap)) ∧
      act ≠ [] ∧
      buildStep st s =
        (st.1 ∪ act.toFinset, st.2 ++ [⟨s.name, requestOf st.1 s, act, s.scale⟩]) := by
  have hb : buildStep st s =
      (if (requestOf st.1 s).isEmpty then st
       else match subset_font s.fontCmap (requestOf st.1 s) with
         | .ok actual =>
           (st.1 ∪ actual.toFinset,
            st.2 ++ [⟨s.name, requestOf st.1 s, actual, s.scale⟩])
         | .error _ => st) := rfl
  rw [hb]
  by_cases hemp : (requestOf st.1 s).isEmpty
  · exact Or.inl (if_pos hemp)
  · rw [if_neg hemp]
    cases hsf : subset_font s.fontCmap (requestOf st.1 s) with
    | error msg => exact Or.inl rfl
    | ok act =>
      obtain ⟨hact, hne⟩ := subset_font_ok_inv hsf
      exact Or.inr ⟨act, hact, hne, rfl⟩

/-- C1.  Cross-script dedup: in the orchestrator's subsetting loop over two
scripts, if both scripts produce subset entries, then no codepoint in the
first subset's actual character map appears in the codepoint request passed
to the second script's subset. -/
theorem cross_script_dedup (s1 s2 : Script) (e1 e2 : SubEntry)
    (h : (subsetPhase [s1, s2]).2 = [e1, e2]) :
    ∀ cp ∈ e1.actual, cp ∉ e2.request := by
  have hphase : subsetPhase [s1, s2] = buildStep (buildStep (∅, []) s1) s2 := rfl
  rw [hphase] at h
  rcases buildStep_cases (∅, []) s1 with h1 | ⟨act1, hact1, hne1, heq1⟩
  · rw [h1] at h
    rcases buildStep_cases (∅, []) s2 with h2 | ⟨act2, hact2, hne2, heq2⟩
    · rw [h2] at h
      simp at h
    · rw [heq2] at h
      simp at h
  · rw [heq1] at h
    rcases buildStep_cases
        ((∅ : Finset Int) ∪ act1.toFinset,
         ([] : List SubEntry) ++ [⟨s1.name, requestOf (∅, ([] : List SubEntry)).1 s1, act1, s1.scale⟩])
        s2 with h2 | ⟨act2, hact2, hne2, heq2⟩
    · rw [h2] at h
      simp at h
    · rw [heq2] at h
      simp only [List.nil_append, List.cons_append, List.cons.injEq, and_true] at h
      obtain ⟨he1, rfl⟩ := h
      intro cp hcp hreq
      rw [← he1] at hcp
      have hcp1 : cp ∈ act1 := hcp
      have hmem : cp ∈ ((∅ : Finset Int) ∪ act1.toFinset) := by
        simp only [Finset.mem_union, List.mem_toFinset]
        exact Or.inr hcp1
      have hcovne : ((∅ : Finset Int) ∪ act1.toFinset) ≠ ∅ :=
        Finset.ne_empty_of_mem hmem
      have hreq2 : cp ∈ requestOf ((∅ : Finset Int) ∪ act1.toFinset) s2 := hreq
      simp only [requestOf, if_neg hcovne, List.mem_filter,
        decide_eq_true_eq] at hreq2
      exact hreq2.2 hmem

/-- C1 witness: running the loop on the two concrete scripts yields both
entries, and no codepoint of the first entry's actual coverage appears in
the second entry's request. -/
theorem cross_script_dedup_witness :
    (subsetPhase [dedupScript1, dedupScript2]).2 = [dedupEntry1, dedupEntry2] ∧
    ∀ cp ∈ dedupEntry1.actual, cp ∉ dedupEntry2.request :=
  ⟨by decide,
    cross_script_dedup dedupScript1 dedupScript2 dedupEntry1 dedupEntry2 (by decide)⟩

theorem hex_char_facts (c : Char) (h : isHexCh c = true) :
    pyWhitespace c = false ∧ c ≠ '-' ∧ c ≠ '_' ∧ c ≠ '+' ∧
    (hexVal? c).isSome = true ∧
    pyWhitespace (Char.toUpper c) = false ∧
    Char.toUpper c ≠ '-' ∧ Char.toUpper c ≠ '_' ∧ Char.toUpper c ≠ '+' ∧
    Char.toUpper c ≠ 'x' ∧ Char.toUpper c ≠ 'X' ∧
    isHexCh (Char.toUpper c) = true ∧
    hexVal? (Char.toUpper c) = hexVal? c := by
  simp only [isHexCh, HEXDIGITS, List.mem_cons, List.not_mem_nil, or_false,
    decide_eq_true_eq] at h
  rcases h with rfl | rfl | rfl | rfl | rfl | rfl | rfl | rfl | rfl | rfl | rfl |
    rfl | rfl | rfl | rfl | rfl | rfl | rfl | rfl | rfl | rfl | rfl <;> decide

theorem dropWhile_id_of_forall {p : Char → Bool} (l : List Char)
    (h : ∀ c ∈ l, p c = false) : l.dropWhile p = l := by
  cases l with
  | nil => rfl
  | cons c t =>
    rw [List.dropWhile_cons]
    simp [h c (List.mem_cons_self c t)]

theorem pyStrip_eq_self (l : List Char) (h : ∀ c ∈ l, pyWhitespace c = false) :
    pyStrip l = l := by
  unfold pyStrip
  rw [dropWhile_id_of_forall l h]
  rw [dropWhile_id_of_forall l.reverse
    (fun c hc => h c (List.mem_reverse.mp hc))]
  exact List.reverse_reverse l

theorem pyHexCore_all_hex (l : List Char) (acc : Nat)
    (h : ∀ c ∈ l, isHexCh c = true) :
    pyHexCore l acc =
      some (l.foldl (fun a c => 16 * a + (hexVal? c).getD 0) acc) := by
  induction l generalizing acc with
  | nil => rfl
  | cons c t ih =>
    have hc := hex_char_facts c (h c (List.mem_cons_self c t))
    obtain ⟨d, hd⟩ := Option.isSome_iff_exists.mp hc.2.2.2.2.1
    calc pyHexCore (c :: t) acc
        = pyHexCore t (16 * acc + d) := by
          rw [pyHexCore.eq_def]
          dsimp only
          rw [if_neg hc.2.2.1, hd]
      _ = some (t.foldl (fun a x => 16 * a + (hexVal? x).getD 0) (16 * acc + d)) :=
          ih (16 * acc + d) (fun x hx => h x (List.mem_cons_of_mem c hx))
      _ = some ((c :: t).foldl (fun a x => 16 * a + (hexVal? x).getD 0) acc) := by
          simp [List.foldl_cons, hd]

theorem parseHexDigits_all_hex (l : List Char) (hne : l ≠ [])
    (h : ∀ c ∈ l, isHexCh c = true) :
    parseHexDigits l = some (hexListVal l) := by
  cases l with
  | nil => exact absurd rfl hne
  | cons c t =>
    have hc := hex_char_facts c (h c (List.mem_cons_self c t))
    obtain ⟨d, hd⟩ := Option.isSome_iff_exists.mp hc.2.2.2.2.1
    calc parseHexDigits (c :: t)
        = pyHexCore t d := by rw [parseHexDigits, hd]
      _ = some (t.foldl (fun a x => 16 * a + (hexVal? x).getD 0) d) :=
          pyHexCore_all_hex t d (fun x hx => h x (List.mem_cons_of_mem c hx))
      _ = some (hexListVal (c :: t)) := by
          simp [hexListVal, List.foldl_cons, hd]

theorem pySignSplit_of_ne (c : Char) (rest : List Char)
    (h1 : c ≠ '+') (h2 : c ≠ '-') :
    pySignSplit (c :: rest) = (1, c :: rest) := by
  unfold pySignSplit
  split
  · rename_i heq
    injection heq with hh _
    exact absurd hh h1
  · rename_i heq
    injection heq with hh _
    exact absurd hh h2
  · rfl

theorem pyHexBody_all_hex (l : List Char)
    (h : ∀ c ∈ l, isHexCh c = true) :
    pyHexBody l = parseHexDigits l := by
  unfold pyHexBody
  split
  · rename_i c2 r
    have hc2 : isHexCh c2 = true := by
      apply h
      simp
    have hnx : ¬(c2 = 'x' ∨ c2 = 'X') := by
      rintro (rfl | rfl) <;> exact absurd hc2 (by decide)
    exact if_neg hnx
  · rfl

theorem pyInt16_all_hex (l : List Char) (hne : l ≠ [])
    (h : ∀ c ∈ l, isHexCh c = true) :
    pyInt16? l = some ((hexListVal l : Nat) : Int) := by
  have hws : ∀ c ∈ l, pyWhitespace c = false :=
    fun c hc => (hex_char_facts c (h c hc)).1
  obtain ⟨c, t, rfl⟩ : ∃ c t, l = c :: t := by
    cases l with
    | nil => exact absurd rfl hne
    | cons c t => exact ⟨c, t, rfl⟩
  have hc := hex_char_facts c (h c (List.mem_cons_self c t))
  unfold pyInt16?
  dsimp only
  rw [pyStrip_eq_self _ hws]
  rw [pySignSplit_of_ne c t hc.2.2.2.1 hc.2.1]
  dsimp only
  rw [pyHexBody_all_hex _ h]
  rw [parseHexDigits_all_hex _ hne h]
  simp

theorem splitOnce_append (xs ys : List Char) (sep : Char) (h : sep ∉ xs) :
    splitOnce (xs ++ sep :: ys) sep = (xs, ys) := by
  induction xs with
  | nil => simp [splitOnce]
  | cons c t ih =>
    have hc : ¬(c = sep) := fun hcs => h (hcs ▸ List.mem_cons_self c t)
    rw [List.cons_append, splitOnce, if_neg hc]
    rw [ih (fun hmem => h (List.mem_cons_of_mem c hmem))]

theorem splitOnce_reconstruct (l : List Char) (sep : Char) (h : sep ∈ l) :
    l = (splitOnce l sep).1 ++ sep :: (splitOnce l sep).2 ∧
      sep ∉ (splitOnce l sep).1 := by
  induction l with
  | nil => cases h
  | cons c t ih =>
    by_cases hc : c = sep
    · subst hc
      simp [splitOnce]
    · have ht : sep ∈ t := by
        rcases List.mem_cons.mp h with heq | hmem
        · exact absurd heq.symm hc
        · exact hmem
      obtain ⟨h1, h2⟩ := ih ht
      rw [splitOnce, if_neg hc]
      constructor
      · dsimp only
        rw [List.cons_append]
        exact congrArg (c :: ·) h1
      · dsimp only
        intro hmem
        rcases List.mem_cons.mp hmem with heq | hmem2
        · exact hc heq.symm
        · exact h2 hmem2

theorem hexListVal_map_toUpper (l : List Char)
    (h : ∀ c ∈ l, isHexCh c = true) :
    hexListVal (l.map Char.toUpper) = hexListVal l := by
  have hgen : ∀ acc : Nat,
      (l.map Char.toUpper).foldl (fun a c => 16 * a + (hexVal? c).getD 0) acc =
        l.foldl (fun a c => 16 * a + (hexVal? c).getD 0) acc := by
    induction l with
    | nil => intro acc; rfl
    | cons c t ih =>
      intro acc
      have hc := hex_char_facts c (h c (List.mem_cons_self c t))
      rw [List.map_cons, List.foldl_cons, List.foldl_cons,
        hc.2.2.2.2.2.2.2.2.2.2.2.2]
      exact ih (fun x hx => h x (List.mem_cons_of_mem c hx)) _
  exact hgen 0

theorem parseOneRange_wf (acc : Finset Int) (r : List Char)
    (h : wfRangeB r = true) :
    parseOneRange acc r = .ok (acc ∪ rangeCPs r) := by
  unfold wfRangeB at h
  split at h
  case h_2 => exact absurd h (by simp)
  case h_1 body =>
    by_cases hdash : '-' ∈ body
    · -- pair form U+XXXX-YYYY
      rw [if_pos hdash] at h
      simp only [Bool.and_eq_true, Bool.not_eq_true', List.isEmpty_eq_false,
        List.all_eq_true, decide_eq_true_eq] at h
      obtain ⟨⟨⟨⟨hp1ne, hp2ne⟩, hp1hex⟩, hp2hex⟩, -⟩ := h
      obtain ⟨hrec, hnotin⟩ := splitOnce_reconstruct body '-' hdash
      have hws : ∀ c ∈ 'U' :: '+' :: body, pyWhitespace c = false := by
        intro c hc
        rcases List.mem_cons.mp hc with rfl | hc2
        · decide
        rcases List.mem_cons.mp hc2 with rfl | hc3
        · decide
        rw [hrec] at hc3
        rcases List.mem_append.mp hc3 with hcp1 | hcp2
        · exact (hex_char_facts c (hp1hex c hcp1)).1
        rcases List.mem_cons.mp hcp2 with rfl | hcp3
        · decide
        · exact (hex_char_facts c (hp2hex c hcp3)).1
      unfold parseOneRange
      dsimp only
      rw [pyStrip_eq_self _ hws, List.map_cons, List.map_cons]
      rw [show Char.toUpper 'U' = 'U' from by decide,
        show Char.toUpper '+' = '+' from by decide]
      have htake : List.take 2 ('U' :: '+' :: (body.map Char.toUpper)) = ['U', '+'] := rfl
      have hdrop : List.drop 2 ('U' :: '+' :: (body.map Char.toUpper)) =
          body.map Char.toUpper := rfl
      rw [htake, if_pos rfl, hdrop]
      have hmaprec : body.map Char.toUpper =
          (splitOnce body '-').1.map Char.toUpper ++
            '-' :: (splitOnce body '-').2.map Char.toUpper := by
        conv_lhs => rw [hrec]
        rw [List.map_append, List.map_cons]
        rw [show Char.toUpper '-' = '-' from by decide]
      rw [hmaprec]
      have hdash2 : '-' ∈ (splitOnce body '-').1.map Char.toUpper ++
          '-' :: (splitOnce body '-').2.map Char.toUpper := by
        exact List.mem_append.mpr (Or.inr (List.mem_cons_self _ _))
      rw [if_pos hdash2]
      have hnotin2 : '-' ∉ (splitOnce body '-').1.map Char.toUpper := by
        intro hmem
        obtain ⟨c, hcb, heqc⟩ := List.mem_map.mp hmem
        exact (hex_char_facts c (hp1hex c hcb)).2.2.2.2.2.2.1 heqc
      rw [splitOnce_append _ _ _ hnotin2]
      have hup1 : ∀ c ∈ (splitOnce body '-').1.map Char.toUpper, isHexCh c = true := by
        intro c hc
        obtain ⟨x, hxb, rfl⟩ := List.mem_map.mp hc
        exact (hex_char_facts x (hp1hex x hxb)).2.2.2.2.2.2.2.2.2.2.2.1
      have hup2 : ∀ c ∈ (splitOnce body '-').2.map Char.toUpper, isHexCh c = true := by
        intro c hc
        obtain ⟨x, hxb, rfl⟩ := List.mem_map.mp hc
        exact (hex_char_facts x (hp2hex x hxb)).2.2.2.2.2.2.2.2.2.2.2.1
      rw [pyInt16_all_hex _ (by simpa using hp1ne) hup1,
        pyInt16_all_hex _ (by simpa using hp2ne) hup2]
      dsimp only
      rw [hexListVal_map_toUpper _ hp1hex, hexListVal_map_toUpper _ hp2hex]
      simp only [rangeCPs]
      rw [if_pos hdash]
    · -- single form U+XXXX
      rw [if_neg hdash] at h
      simp only [Bool.and_eq_true, Bool.not_eq_true', List.isEmpty_eq_false,
        List.all_eq_true, decide_eq_true_eq] at h
      obtain ⟨hbne, hhex⟩ := h
      have hws : ∀ c ∈ 'U' :: '+' :: body, pyWhitespace c = false := by
        intro c hc
        rcases List.mem_cons.mp hc with rfl | hc2
        · decide
        rcases List.mem_cons.mp hc2 with rfl | hc3
        · decide
        · exact (hex_char_facts c (hhex c hc3)).1
      unfold parseOneRange
      dsimp only
      rw [pyStrip_eq_self _ hws, List.map_cons, List.map_cons]
      rw [show Char.toUpper 'U' = 'U' from by decide,
        show Char.toUpper '+' = '+' from by decide]
      have htake : List.take 2 ('U' :: '+' :: (body.map Char.toUpper)) = ['U', '+'] := rfl
      have hdrop : List.drop 2 ('U' :: '+' :: (body.map Char.toUpper)) =
          body.map Char.toUpper := rfl
      rw [htake, if_pos rfl, hdrop]
      have hnd : '-' ∉ body.map Char.toUpper := by
        intro hmem
        obtain ⟨c, hcb, heqc⟩ := List.mem_map.mp hmem
        exact (hex_char_facts c (hhex c hcb)).2.2.2.2.2.2.1 heqc
      rw [if_neg hnd]
      have hupx : ∀ c ∈ body.map Char.toUpper, isHexCh c = true := by
        intro c hc
        obtain ⟨x, hxb, rfl⟩ := List.mem_map.mp hc
        exact (hex_char_facts x (hhex x hxb)).2.2.2.2.2.2.2.2.2.2.2.1
      rw [pyInt16_all_hex _ (by simpa using hbne) hupx]
      dsimp only
      rw [hexListVal_map_toUpper _ hhex]
      simp only [rangeCPs]
      rw [if_neg hdash]
      rw [Finset.insert_eq, Finset.union_comm]

theorem foldlM_parseOneRange_wf (ranges : List (List Char)) (acc : Finset Int)
    (h : ∀ r ∈ ranges, wfRangeB r = true) :
    ranges.foldlM parseOneRange acc =
      .ok (ranges.foldl (fun s r => s ∪ rangeCPs r) acc) := by
  induction ranges generalizing acc with
  | nil => rfl
  | cons r rs ih =>
    rw [List.foldlM_cons]
    rw [parseOneRange_wf acc r (h r (List.mem_cons_self r rs))]
    show rs.foldlM parseOneRange (acc ∪ rangeCPs r) = _
    rw [ih _ (fun x hx => h x (List.mem_cons_of_mem r hx))]
    rfl

theorem mem_foldl_union_rangeCPs (ranges : List (List Char)) (acc : Finset Int)
    (cp : Int) :
    cp ∈ ranges.foldl (fun s r => s ∪ rangeCPs r) acc ↔
      cp ∈ acc ∨ ∃ r ∈ ranges, cp ∈ rangeCPs r := by
  induction ranges generalizing acc with
  | nil => simp
  | cons r rs ih =>
    rw [List.foldl_cons, ih]
    simp only [Finset.mem_union, List.mem_cons]
    constructor
    · rintro ((hc | hc) | ⟨x, hx, hcx⟩)
      · exact Or.inl hc
      · exact Or.inr ⟨r, Or.inl rfl, hc⟩
      · exact Or.inr ⟨x, Or.inr hx, hcx⟩
    · rintro (hc | ⟨x, (rfl | hx), hcx⟩)
      · exact Or.inl (Or.inl hc)
      · exact Or.inl (Or.inr hcx)
      · exact Or.inr ⟨x, hx, hcx⟩

/-- C4.  Range resolution: for every list of well-formed range strings
(`U+XXXX` or `U+XXXX-YYYY`, valid hex digits, start ≤ end),
`parse_unicode_ranges` succeeds with the sorted, duplicate-free list
containing exactly the codepoints of the union of the denoted inclusive
ranges. -/
theorem parse_unicode_ranges_wellformed (ranges : List (List Char))
    (h : ∀ r ∈ ranges, wfRangeB r = true) :
    ∃ l, parse_unicode_ranges ranges = .ok l ∧ List.Sorted (· < ·) l ∧
      ∀ cp : Int, cp ∈ l ↔ ∃ r ∈ ranges, cp ∈ rangeCPs r := by
  refine ⟨(ranges.foldl (fun s r => s ∪ rangeCPs r) ∅).sort (· ≤ ·), ?_, ?_, ?_⟩
  · unfold parse_unicode_ranges
    rw [foldlM_parseOneRange_wf ranges ∅ h]
  · exact Finset.sort_sorted_lt _
  · intro cp
    rw [Finset.mem_sort]
    rw [mem_foldl_union_rangeCPs]
    simp

/-- C4 witness: both concrete ranges are well-formed, and the resolver
returns their sorted deduplicated union. -/
theorem parse_unicode_ranges_wellformed_witness :
    (∀ r ∈ [wfRange1, wfRange2], wfRangeB r = true) ∧
    (∃ l, parse_unicode_ranges [wfRange1, wfRange2] = .ok l ∧
      List.Sorted (· < ·) l ∧
      ∀ cp : Int, cp ∈ l ↔ ∃ r ∈ [wfRange1, wfRange2], cp ∈ rangeCPs r) :=
  ⟨by decide, parse_unicode_ranges_wellformed [wfRange1, wfRange2] (by decide)⟩

theorem parse_unicode_ranges_single_eq (r : List Char) :
    parse_unicode_ranges [r] =
      (match parseOneRange ∅ r with
       | .ok s => .ok (s.sort (· ≤ ·))
       | .error e => .error e) := by
  cases hp : parseOneRange (∅ : Finset Int) r with
  | ok s =>
    unfold parse_unicode_ranges
    rw [List.foldlM_cons, hp]
    rfl
  | error e =>
    unfold parse_unicode_ranges
    rw [List.foldlM_cons, hp]
    rfl

theorem parseOneRange_pair (acc : Finset Int) (a b : List Char)
    (hahex : ∀ c ∈ a, isHexCh c = true) (hbhex : ∀ c ∈ b, isHexCh c = true)
    (hane : a ≠ []) (hbne : b ≠ []) :
    parseOneRange acc ('U' :: '+' :: (a ++ '-' :: b)) =
      .ok (acc ∪ Finset.Icc (hexListVal a : Int) (hexListVal b : Int)) := by
  have hws : ∀ c ∈ 'U' :: '+' :: (a ++ '-' :: b), pyWhitespace c = false := by
    intro c hc
    rcases List.mem_cons.mp hc with rfl | hc2
    · decide
    rcases List.mem_cons.mp hc2 with rfl | hc3
    · decide
    rcases List.mem_append.mp hc3 with hca | hcb
    · exact (hex_char_facts c (hahex c hca)).1
    rcases List.mem_cons.mp hcb with rfl | hcb2
    · decide
    · exact (hex_char_facts c (hbhex c hcb2)).1
  unfold parseOneRange
  dsimp only
  rw [pyStrip_eq_self _ hws, List.map_cons, List.map_cons]
  rw [show Char.toUpper 'U' = 'U' from by decide,
    show Char.toUpper '+' = '+' from by decide]
  have htake : List.take 2
      ('U' :: '+' :: ((a ++ '-' :: b).map Char.toUpper)) = ['U', '+'] := rfl
  have hdrop : List.drop 2
      ('U' :: '+' :: ((a ++ '-' :: b).map Char.toUpper)) =
      (a ++ '-' :: b).map Char.toUpper := rfl
  rw [htake, if_pos rfl, hdrop]
  rw [List.map_append, List.map_cons,
    show Char.toUpper '-' = '-' from by decide]
  rw [if_pos (List.mem_append.mpr (Or.inr (List.mem_cons_self _ _)))]
  have hnotin : '-' ∉ a.map Char.toUpper := by
    intro hmem
    obtain ⟨c, hcb, heqc⟩ := List.mem_map.mp hmem
    exact (hex_char_facts c (hahex c hcb)).2.2.2.2.2.2.1 heqc
  rw [splitOnce_append _ _ _ hnotin]
  have hupa : ∀ c ∈ a.map Char.toUpper, isHexCh c = true := by
    intro c hc
    obtain ⟨x, hxb, rfl⟩ := List.mem_map.mp hc
    exact (hex_char_facts x (hahex x hxb)).2.2.2.2.2.2.2.2.2.2.2.1
  have hupb : ∀ c ∈ b.map Char.toUpper, isHexCh c = true := by
    intro c hc
    obtain ⟨x, hxb, rfl⟩ := List.mem_map.mp hc
    exact (hex_char_facts x (hbhex x hxb)).2.2.2.2.2.2.2.2.2.2.2.1
  rw [pyInt16_all_hex _ (by simpa using hane) hupa,
    pyInt16_all_hex _ (by simpa using hbne) hupb]
  dsimp only
  rw [hexListVal_map_toUpper _ hahex, hexListVal_map_toUpper _ hbhex]

/-- C5 counterexample: the reversed range `U+0050-0041` does *not* fail
with InvalidRange — the resolver returns a codepoint set (here the empty
one), because Python `range(start, end + 1)` is silently empty when the
end is below the start. -/
theorem parse_reversed_range_no_error :
    parse_unicode_ranges [revRange] = .ok [] := by
  rw [show revRange =
      'U' :: '+' :: (['0', '0', '5', '0'] ++ '-' :: ['0', '0', '4', '1']) from rfl]
  rw [parse_unicode_ranges_single_eq]
  rw [parseOneRange_pair ∅ ['0', '0', '5', '0'] ['0', '0', '4', '1']
    (by decide) (by decide) (by decide) (by decide)]
  rw [Finset.Icc_eq_empty (by decide)]
  rw [Finset.union_empty]
  show Except.ok ((∅ : Finset Int).sort (· ≤ ·)) = Except.ok ([] : List Int)
  rw [Finset.sort_empty]

/-- C5 (amended).  Malformed-range rejection holds for a missing `U+`
prefix and for hex fields that do not parse as base-16 integers — those
raise InvalidRange/ValueError — but a *reversed* range (end below start)
does not raise: it succeeds and contributes no codepoints at all. -/
theorem parse_malformed_ranges (r : List Char) :
    (((pyStrip r).map Char.toUpper).take 2 ≠ ['U', '+'] →
      parse_unicode_ranges [r] = .error "Invalid Unicode range") ∧
    (∀ a b : List Char, r = 'U' :: '+' :: (a ++ '-' :: b) →
      (∀ c ∈ a, isHexCh c = true) → (∀ c ∈ b, isHexCh c = true) →
      a ≠ [] → b ≠ [] → (hexListVal b : Int) < (hexListVal a : Int) →
      parse_unicode_ranges [r] = .ok []) ∧
    (∀ body : List Char, r = 'U' :: '+' :: body →
      (∀ c ∈ body, pyWhitespace c = false) →
      '-' ∉ body.map Char.toUpper →
      pyInt16? (body.map Char.toUpper) = none →
      parse_unicode_ranges [r] = .error "invalid literal for int() with base 16") ∧
    (∀ body : List Char, r = 'U' :: '+' :: body →
      (∀ c ∈ body, pyWhitespace c = false) →
      '-' ∈ body.map Char.toUpper →
      (pyInt16? (splitOnce (body.map Char.toUpper) '-').1 = none ∨
        pyInt16? (splitOnce (body.map Char.toUpper) '-').2 = none) →
      parse_unicode_ranges [r] = .error "invalid literal for int() with base 16") := by
  refine ⟨?_, ?_, ?_, ?_⟩
  · intro hpre
    rw [parse_unicode_ranges_single_eq]
    have hone : parseOneRange ∅ r = .error "Invalid Unicode range" := by
      unfold parseOneRange
      dsimp only
      rw [if_neg hpre]
    rw [hone]
  · intro a b hr hahex hbhex hane hbne hlt
    subst hr
    rw [parse_unicode_ranges_single_eq]
    rw [parseOneRange_pair ∅ a b hahex hbhex hane hbne]
    rw [Finset.Icc_eq_empty (not_le.mpr hlt)]
    rw [Finset.union_empty]
    show Except.ok ((∅ : Finset Int).sort (· ≤ ·)) = Except.ok ([] : List Int)
    rw [Finset.sort_empty]
  · intro body hr hws hnd hnone
    subst hr
    rw [parse_unicode_ranges_single_eq]
    have hws2 : ∀ c ∈ 'U' :: '+' :: body, pyWhitespace c = false := by
      intro c hc
      rcases List.mem_cons.mp hc with rfl | hc2
      · decide
      rcases List.mem_cons.mp hc2 with rfl | hc3
      · decide
      · exact hws c hc3
    have hone : parseOneRange ∅ ('U' :: '+' :: body) =
        .error "invalid literal for int() with base 16" := by
      unfold parseOneRange
      dsimp only
      rw [pyStrip_eq_self _ hws2, List.map_cons, List.map_cons]
      rw [show Char.toUpper 'U' = 'U' from by decide,
        show Char.toUpper '+' = '+' from by decide]
      have htake : List.take 2 ('U' :: '+' :: (body.map Char.toUpper)) =
          ['U', '+'] := rfl
      have hdrop : List.drop 2 ('U' :: '+' :: (body.map Char.toUpper)) =
          body.map Char.toUpper := rfl
      rw [htake, if_pos rfl, hdrop]
      rw [if_neg hnd, hnone]
    rw [hone]
  · intro body hr hws hdash hnone
    subst hr
    rw [parse_unicode_ranges_single_eq]
    have hws2 : ∀ c ∈ 'U' :: '+' :: body, pyWhitespace c = false := by
      intro c hc
      rcases List.mem_cons.mp hc with rfl | hc2
      · decide
      rcases List.mem_cons.mp hc2 with rfl | hc3
      · decide
      · exact hws c hc3
    have hone : parseOneRange ∅ ('U' :: '+' :: body) =
        .error "invalid literal for int() with base 16" := by
      unfold parseOneRange
      dsimp only
      rw [pyStrip_eq_self _ hws2, List.map_cons, List.map_cons]
      rw [show Char.toUpper 'U' = 'U' from by decide,
        show Char.toUpper '+' = '+' from by decide]
      have htake : List.take 2 ('U' :: '+' :: (body.map Char.toUpper)) =
          ['U', '+'] := rfl
      have hdrop : List.drop 2 ('U' :: '+' :: (body.map Char.toUpper)) =
          body.map Char.toUpper := rfl
      rw [htake, if_pos rfl, hdrop]
      rw [if_pos hdash]
      rcases hnone with hf | hs
      · cases hg : pyInt16? (splitOnce (body.map Char.toUpper) '-').2 with
        | none => rw [hf]
        | some v => rw [hf]
      · cases hg : pyInt16? (splitOnce (body.map Char.toUpper) '-').1 with
        | none => rw [hs]
        | some v => rw [hs]
    rw [hone]

/-- C5 amended-theorem witnesses: a missing prefix errors, a concrete
reversed range succeeds with the empty codepoint list, a non-hex single
codepoint errors, and pair ranges with unparseable hex fields error. -/
theorem parse_malformed_ranges_witness :
    parse_unicode_ranges [['X', '+', '4', '1']] = .error "Invalid Unicode range" ∧
    parse_unicode_ranges
      ['U' :: '+' :: (['0', '9', '9', '9'] ++ '-' :: ['0', '1', '1', '1'])] = .ok [] ∧
    parse_unicode_ranges [['U', '+', '4', 'G']] =
      .error "invalid literal for int() with base 16" ∧
    parse_unicode_ranges [['U', '+', 'G', 'G', '-', '0', '0', '4', '1']] =
      .error "invalid literal for int() with base 16" ∧
    parse_unicode_ranges [['U', '+', '0', '0', '4', '1', '-']] =
      .error "invalid literal for int() with base 16" :=
  ⟨(parse_malformed_ranges ['X', '+', '4', '1']).1 (by decide),
   (parse_malformed_ranges
      ('U' :: '+' :: (['0', '9', '9', '9'] ++ '-' :: ['0', '1', '1', '1']))).2.1
     ['0', '9', '9', '9'] ['0', '1', '1', '1'] rfl
     (by decide) (by decide) (by decide) (by decide) (by decide),
   (parse_malformed_ranges ['U', '+', '4', 'G']).2.2.1 ['4', 'G'] rfl
     (by decide) (by decide) (by decide),
   (parse_malformed_ranges ['U', '+', 'G', 'G', '-', '0', '0', '4', '1']).2.2.2
     ['G', 'G', '-', '0', '0', '4', '1'] rfl
     (by decide) (by decide) (Or.inl (by decide)),
   (parse_malformed_ranges ['U', '+', '0', '0', '4', '1', '-']).2.2.2
     ['0', '0', '4', '1', '-'] rfl
     (by decide) (by decide) (Or.inr (by decide))⟩

theorem charsetLineStep_eq (acc : Finset Int) (line : List Char) :
    charsetLineStep acc line =
      (match lineContrib line with
       | some v => insert v acc
       | none => acc) := by
  unfold charsetLineStep lineContrib
  split_ifs with h1 h2
  · rfl
  · rfl
  · cases pyInt16? line <;> rfl

theorem mem_charset_foldl (lines : List (List Char)) (acc : Finset Int)
    (cp : Int) :
    cp ∈ lines.foldl charsetLineStep acc ↔
      cp ∈ acc ∨ ∃ line ∈ lines, lineContrib line = some cp := by
  induction lines generalizing acc with
  | nil => simp
  | cons l ls ih =>
    rw [List.foldl_cons, ih, charsetLineStep_eq]
    cases hl : lineContrib l with
    | none =>
      dsimp only
      constructor
      · rintro (hc | ⟨x, hx, hcx⟩)
        · exact Or.inl hc
        · exact Or.inr ⟨x, List.mem_cons_of_mem l hx, hcx⟩
      · rintro (hc | ⟨x, hx, hcx⟩)
        · exact Or.inl hc
        · rcases List.mem_cons.mp hx with rfl | hx2
          · rw [hl] at hcx
            cases hcx
          · exact Or.inr ⟨x, hx2, hcx⟩
    | some v =>
      dsimp only
      rw [Finset.mem_insert]
      constructor
      · rintro ((rfl | hc) | ⟨x, hx, hcx⟩)
        · exact Or.inr ⟨l, List.mem_cons_self l ls, hl⟩
        · exact Or.inl hc
        · exact Or.inr ⟨x, List.mem_cons_of_mem l hx, hcx⟩
      · rintro (hc | ⟨x, hx, hcx⟩)
        · exact Or.inl (Or.inr hc)
        · rcases List.mem_cons.mp hx with rfl | hx2
          · rw [hl] at hcx
            injection hcx with hv
            exact Or.inl (Or.inl hv.symm)
          · exact Or.inr ⟨x, hx2, hcx⟩

/-- C9.  Charset-file lenient parsing: blank and `#` lines are ignored, a
single-character line contributes its codepoint, a longer hex-parseable
line contributes the parsed value, a longer non-hex line contributes its
first character's codepoint (no error), and the result is sorted and
duplicate-free. -/
theorem load_charset_file_spec (lines : List (List Char)) :
    List.Sorted (· < ·) (load_charset_file lines) ∧
    ∀ cp : Int, cp ∈ load_charset_file lines ↔
      ∃ line ∈ lines, lineContrib line = some cp := by
  constructor
  · exact Finset.sort_sorted_lt _
  · intro cp
    unfold load_charset_file
    rw [Finset.mem_sort]
    rw [mem_charset_foldl]
    simp

end OpFonts
